import Mathlib

/-!
Shallow embedding of the concurrent connection manager of the
bevy_renet_dtls repository (crates bevy_dtls, files
src/bevy_dtls/src/server/dtls_server.rs and
src/bevy_dtls/src/client/dtls_client.rs).

Worker loops (accepter, sender, receiver) are modelled as step functions
over an explicit state, driven by a list of events; each event is the
outcome of one await point of the corresponding Rust select arm.  Channels
whose receiver is held by the foreground are modelled as traces (lists of
the values sent); a channel send that can fail because the receiving half
was dropped carries its success as a Bool in the event.  Machine integers
are Nat with the u64 overflow boundary made explicit.
-/

/-- Terminal result of a worker task, `anyhow::Result<()>` with the error
rendered as a message. -/
abbrev WRes := Except String Unit

/-- The largest u64 value: `checked_add(1)` fails exactly at this value. -/
def UMAX64 : Nat := 2 ^ 64 - 1

/-- A join-handle slot of the facade: `none` = slot empty, `some none` =
task spawned and still running, `some (some r)` = task finished with
terminal result `r` (models `Option<JoinHandle<anyhow::Result<()>>>`
together with `is_finished()`). -/
abbrev Handle := Option (Option WRes)

/-- `rs.is_finished()` would return true for a present handle, or the slot
is empty (already consumed). -/
def handleDone : Handle → Bool
  | none => true
  | some (some _) => true
  | some none => false

/-- The terminal result a health check surfaces from a handle slot: present
exactly when the slot holds a finished task. -/
def hRes : Handle → Option WRes
  | some (some r) => some r
  | _ => none

/-- Server-side per-connection record, `DtlsConn` in dtls_server.rs.
`connId` stands for the underlying `Arc<dyn Conn>`; channel endpoints are
modelled by their presence (`send_tx` also carries whether the receiving
side is still alive). -/
structure SConnRec where
  connId : Nat
  isRunning : Bool
  recvHandle : Handle
  closeRecvTx : Bool
  sendHandle : Handle
  sendTx : Option Bool
  closeSendTx : Bool

/-- `DtlsConn::new(conn)`: all slots empty, not running. -/
def SConnRec.new (c : Nat) : SConnRec :=
  ⟨c, false, none, false, none, none, false⟩

/-- The server connection registry, `HashMap<u64, DtlsConn>` as an
association list in insertion order. -/
abbrev ConnMap := List (Nat × SConnRec)

/-! ## Accepter loop (DtlsServerAcpter::acpt_loop) -/

/-- One resolved select arm of the accepter loop.  `accepted peer txOk`
is a peer admitted by `listener.accept()`, with `txOk` the success of the
later `acpt_tx.send` (false iff the accept receiver was dropped);
`acceptFail` is an `Err` from `accept()`; `chanElse` is the select
else-branch (all channels closed); `reap k` models the foreground
health check removing entry `k` from the shared registry between
iterations. -/
inductive AcptEvent where
  | close
  | accepted (peer : Nat) (txOk : Bool)
  | acceptFail (e : String)
  | chanElse
  | reap (k : Nat)

/-- Terminal errors of the accepter. -/
inductive AcptErr where
  | acceptFail (e : String)
  | idxOverflow
  | acptChanClosed
  | lsnCloseFail (e : String)

/-- Whether an event is a concurrent registry removal (not an arm of the
loop itself). -/
def isReap : AcptEvent → Bool
  | .reap _ => true
  | _ => false

/-- Accepter loop state: the index counter, the shared registry, the trace
of indices sent on the accept channel and the peers the loop closed. -/
structure AcptState where
  idxCtr : Nat
  registry : ConnMap
  announced : List Nat
  closedPeers : List Nat

/-- Loop entry state: `let mut index: u64 = 1;` with everything empty. -/
def initAcptState : AcptState := ⟨1, [], [], []⟩

/-- The admission path of dtls_server.rs lines 147-170 as its three
micro-steps, in the code's order: (1) `let idx = index;
index = index.checked_add(1)` (the non-overflowing case), (2)
`acpt_tx.send(ConnIndex(idx))` (successful case), (3)
`conn_map.write().insert(idx, DtlsConn::new(conn))`.  The returned list
holds the state after each micro-step. -/
def admitMicro (s : AcptState) (peer : Nat) : List AcptState :=
  let idx := s.idxCtr
  let s1 : AcptState := { s with idxCtr := s.idxCtr + 1 }
  let s2 : AcptState := { s1 with announced := s1.announced ++ [idx] }
  let s3 : AcptState := { s2 with registry := s2.registry ++ [(idx, SConnRec.new peer)] }
  [s1, s2, s3]

/-- One iteration of `acpt_loop` (dtls_server.rs lines 117-171).
`Sum.inl` continues the loop, `Sum.inr` breaks with the loop result. -/
def acptStep (maxClients : Nat) (s : AcptState) :
    AcptEvent → AcptState ⊕ (AcptState × Except AcptErr Unit)
  | .close => .inr (s, .ok ())
  | .acceptFail e => .inr (s, .error (.acceptFail e))
  | .chanElse => .inr (s, .ok ())
  | .reap k => .inl { s with registry := s.registry.filter (fun p => p.1 != k) }
  | .accepted peer txOk =>
    if maxClients ≤ s.registry.length then
      .inl { s with closedPeers := s.closedPeers ++ [peer] }
    else if s.idxCtr = UMAX64 then
      .inr ({ s with closedPeers := s.closedPeers ++ [peer] }, .error .idxOverflow)
    else if txOk then
      .inl ((admitMicro s peer).getLastD s)
    else
      .inr ({ s with idxCtr := s.idxCtr + 1, closedPeers := s.closedPeers ++ [peer] },
        .error .acptChanClosed)

/-- Run the accepter loop on a list of events.  The second component is
`none` while the loop is still awaiting (events exhausted) and `some r`
once the loop broke with result `r`; later events are not consumed. -/
def acptRun (maxClients : Nat) : AcptState → List AcptEvent →
    AcptState × Option (Except AcptErr Unit)
  | s, [] => (s, none)
  | s, e :: es =>
    match acptStep maxClients s e with
    | .inl s1 => acptRun maxClients s1 es
    | .inr (s1, r) => (s1, some r)

/-- The full result of `acpt_loop` (dtls_server.rs lines 173-175): after
the loop breaks, `self.listener.close().await?` runs; the question mark
propagates a listener-close error, otherwise the loop's own result is
returned. -/
def acptLoopResult (maxClients : Nat) (es : List AcptEvent)
    (lsnClose : Except String Unit) : Option (Except AcptErr Unit) :=
  match (acptRun maxClients initAcptState es).2 with
  | none => none
  | some r =>
    match lsnClose with
    | .error e => some (.error (.lsnCloseFail e))
    | .ok _ => some r

/-! ## Sender loops (DtlsServerSender::send_loop, DtlsClientSender::send_loop) -/

/-- Outcome of `timeout(T_s, conn.send(msg)).await` for one dequeued
message: completed with `Ok(n)`, completed with a transport error, or the
deadline elapsed (`txOk` is the success of the subsequent
`timeout_tx.send`, false iff the timeout receiver was dropped). -/
inductive SendOutcome where
  | ok (n : Nat)
  | err (e : String)
  | timedOut (txOk : Bool)

/-- One resolved select arm of a sender loop: close signal, a dequeued
message with its send outcome, or the else-branch. -/
inductive SendEvent where
  | close
  | msg (b : List Nat) (oc : SendOutcome)
  | chanElse

/-- Terminal errors of a sender loop. -/
inductive SendErr where
  | transport (e : String)
  | timeoutChanClosed

/-- Whether this event makes the sender loop break. -/
def sendBreaks : SendEvent → Bool
  | .close => true
  | .chanElse => true
  | .msg _ (.ok _) => false
  | .msg _ (.err _) => true
  | .msg _ (.timedOut txOk) => !txOk

/-- The events the loop fully processes without breaking: the longest
prefix of non-breaking events. -/
def procEvents : List SendEvent → List SendEvent
  | [] => []
  | e :: es => if sendBreaks e then [] else e :: procEvents es

/-- The message bytes re-emitted on the timeout channel by a list of
events: exactly the bytes of the messages whose send timed out. -/
def timeoutBytes (es : List SendEvent) : List (List Nat) :=
  es.filterMap fun e =>
    match e with
    | .msg b (.timedOut true) => some b
    | _ => none

/-- `DtlsServerSender::send_loop` (dtls_server.rs lines 306-343): the loop
body, threading the timeout-channel trace of `DtlsServerTimeout::Send`
items; `none` = still looping. -/
def serverSendLoop (idx : Nat) : List SendEvent → List (Nat × List Nat) →
    List (Nat × List Nat) × Option (Except SendErr Unit)
  | [], tr => (tr, none)
  | .close :: _, tr => (tr, some (.ok ()))
  | .chanElse :: _, tr => (tr, some (.ok ()))
  | .msg _ (.ok _) :: es, tr => serverSendLoop idx es tr
  | .msg _ (.err e) :: _, tr => (tr, some (.error (.transport e)))
  | .msg b (.timedOut true) :: es, tr => serverSendLoop idx es (tr ++ [(idx, b)])
  | .msg _ (.timedOut false) :: _, tr => (tr, some (.error .timeoutChanClosed))

/-- `DtlsClientSender::send_loop` (dtls_client.rs lines 105-136): the loop
body, threading the trace of `DtlsClientTimeout::Send` items. -/
def clientSendLoop : List SendEvent → List (List Nat) →
    List (List Nat) × Option (Except SendErr Unit)
  | [], tr => (tr, none)
  | .close :: _, tr => (tr, some (.ok ()))
  | .chanElse :: _, tr => (tr, some (.ok ()))
  | .msg _ (.ok _) :: es, tr => clientSendLoop es tr
  | .msg _ (.err e) :: _, tr => (tr, some (.error (.transport e)))
  | .msg b (.timedOut true) :: es, tr => clientSendLoop es (tr ++ [b])
  | .msg _ (.timedOut false) :: _, tr => (tr, some (.error .timeoutChanClosed))

/-! ## Receiver loops (DtlsServerRecver::recv_loop, DtlsClientRecver::recv_loop) -/

/-- One resolved select arm of the server receiver loop: close signal, a
record of bytes `d` decoded by `conn.recv_from` into the buffer (`txOk`
the success of the subsequent `recv_tx.send`), a transport error, the
inactivity timer firing (`txOk` the success of `timeout_tx.send`), or the
else-branch. -/
inductive RecvEvent where
  | close
  | record (d : List Nat) (txOk : Bool)
  | recvFail (e : String)
  | timerFire (txOk : Bool)
  | chanElse

/-- Terminal errors of a receiver loop. -/
inductive RecvErr where
  | transport (e : String)
  | recvChanClosed
  | timeoutChanClosed

/-- Receiver loop state: the reused `BytesMut` buffer, the trace of
datagrams pushed on the inbound queue, and the trace of
`DtlsServerTimeout::Recv` items. -/
structure RecvSt where
  buf : List Nat
  delivered : List (Nat × List Nat)
  rtims : List Nat

/-- Writing a decoded record into the front of the buffer, as
`conn.recv_from(&mut buf)` does: the first `d.length` bytes are
overwritten, the rest is untouched, the length is unchanged. -/
def bufWrite (buf d : List Nat) : List Nat :=
  d.take buf.length ++ buf.drop d.length

/-- `BytesMut::resize(n, 0)`: truncate to `n` or extend with zeroes up to
length `n`. -/
def bufResize (buf : List Nat) (n : Nat) : List Nat :=
  if n ≤ buf.length then buf.take n else buf ++ List.replicate (n - buf.length) 0

/-- Whether this event makes the server receiver loop break. -/
def recvBreaks : RecvEvent → Bool
  | .close => true
  | .chanElse => true
  | .recvFail _ => true
  | .timerFire txOk => !txOk
  | .record _ txOk => !txOk

/-- The longest prefix of receiver events processed without breaking. -/
def recvProc : List RecvEvent → List RecvEvent
  | [] => []
  | e :: es => if recvBreaks e then [] else e :: recvProc es

/-- The record payloads among a list of receiver events (delivered ones). -/
def recvRecords (es : List RecvEvent) : List (List Nat) :=
  es.filterMap fun e =>
    match e with
    | .record d true => some d
    | _ => none

/-- The size bound `conn.recv_from(&mut buf)` guarantees: a decoded record
fits in the buffer of size `B`. -/
def recSizeOk (B : Nat) : RecvEvent → Bool
  | .record d _ => decide (d.length ≤ B)
  | _ => true

/-- `DtlsServerRecver::recv_loop` (dtls_server.rs lines 221-262): each
iteration splits the first `n` received bytes off the buffer
(`buf.split_to(n).freeze()`), pushes them on the inbound queue, then
restores the buffer with `buf.resize(buf_size, 0)`. -/
def srvRecvRun (idx B : Nat) : List RecvEvent → RecvSt →
    RecvSt × Option (Except RecvErr Unit)
  | [], s => (s, none)
  | .close :: _, s => (s, some (.ok ()))
  | .chanElse :: _, s => (s, some (.ok ()))
  | .recvFail e :: _, s => (s, some (.error (.transport e)))
  | .timerFire true :: es, s => srvRecvRun idx B es { s with rtims := s.rtims ++ [idx] }
  | .timerFire false :: _, s => (s, some (.error .timeoutChanClosed))
  | .record d txOk :: es, s =>
    let b1 := bufWrite s.buf d
    let n := d.length
    let recved := b1.take n
    let b2 := b1.drop n
    if txOk then
      srvRecvRun idx B es
        { buf := bufResize b2 B, delivered := s.delivered ++ [(idx, recved)], rtims := s.rtims }
    else
      ({ s with buf := b2 }, some (.error .recvChanClosed))

/-- Client receiver loop state: buffer and the inbound trace (no conn
index, no timer on the client side). -/
structure CRecvSt where
  buf : List Nat
  delivered : List (List Nat)

/-- One resolved select arm of the client receiver loop
(dtls_client.rs lines 166-199): no inactivity timer exists. -/
inductive CRecvEvent where
  | close
  | record (d : List Nat) (txOk : Bool)
  | recvFail (e : String)
  | chanElse

/-- Whether this event makes the client receiver loop break. -/
def cRecvBreaks : CRecvEvent → Bool
  | .close => true
  | .chanElse => true
  | .recvFail _ => true
  | .record _ txOk => !txOk

/-- The longest prefix of client receiver events processed without
breaking. -/
def cRecvProc : List CRecvEvent → List CRecvEvent
  | [] => []
  | e :: es => if cRecvBreaks e then [] else e :: cRecvProc es

/-- The record payloads among client receiver events. -/
def cRecvRecords (es : List CRecvEvent) : List (List Nat) :=
  es.filterMap fun e =>
    match e with
    | .record d true => some d
    | _ => none

/-- Size bound for client receiver events. -/
def cRecSizeOk (B : Nat) : CRecvEvent → Bool
  | .record d _ => decide (d.length ≤ B)
  | _ => true

/-- `DtlsClientRecver::recv_loop` (dtls_client.rs lines 166-199). -/
def cliRecvRun (B : Nat) : List CRecvEvent → CRecvSt →
    CRecvSt × Option (Except RecvErr Unit)
  | [], s => (s, none)
  | .close :: _, s => (s, some (.ok ()))
  | .chanElse :: _, s => (s, some (.ok ()))
  | .recvFail e :: _, s => (s, some (.error (.transport e)))
  | .record d txOk :: es, s =>
    let b1 := bufWrite s.buf d
    let n := d.length
    let recved := b1.take n
    let b2 := b1.drop n
    if txOk then
      cliRecvRun B es { buf := bufResize b2 B, delivered := s.delivered ++ [recved] }
    else
      ({ s with buf := b2 }, some (.error .recvChanClosed))

/-! ## Client facade (DtlsClient) -/

/-- The `DtlsClient` resource (dtls_client.rs lines 202-219): `conn`
stands for the `Arc<dyn Conn>` slot, worker handles are `Handle` slots,
channel endpoints are modelled by their presence. -/
structure DtlsClientSt where
  conn : Option Nat
  isRunning : Bool
  sendHandle : Handle
  sendTx : Bool
  sendTimeoutRx : Bool
  closeSendTx : Bool
  recvHandle : Handle
  recvRx : Bool
  closeRecvTx : Bool

/-- `DtlsClient::is_closed` (dtls_client.rs lines 248-262). -/
def clientIsClosed (s : DtlsClientSt) : Bool :=
  !s.isRunning && s.conn.isNone && s.recvHandle.isNone && s.sendHandle.isNone
  && !s.sendTx && !s.sendTimeoutRx && !s.closeSendTx
  && !s.recvRx && !s.closeRecvTx

/-- Failure cases of `DtlsClient::start` and its callees
`start_connect`, `start_send_loop`, `start_recv_loop`. -/
inductive ClientStartErr where
  | notClosed
  | connectFail (e : String)
  | sendHandleBusy
  | sendConnNone
  | recvHandleBusy
  | recvConnNone

/-- `DtlsClient::start` (dtls_client.rs lines 264-274) with its callees
inlined in program order: the `is_closed` guard, then `start_connect`
(whose outcome `cr` is the environment: the result of
`DtlsClientConfig::connect`), then `start_send_loop`, then
`start_recv_loop`. -/
def clientStart (s : DtlsClientSt) (cr : Except String Nat) :
    Except ClientStartErr DtlsClientSt :=
  if clientIsClosed s then
    match cr with
    | .error e => .error (.connectFail e)
    | .ok c =>
      let s1 := { s with conn := some c }
      if s1.sendHandle.isSome then .error .sendHandleBusy
      else
        match s1.conn with
        | none => .error .sendConnNone
        | some _ =>
          let s2 := { s1 with
                      sendTx := true, sendTimeoutRx := true, closeSendTx := true,
                      sendHandle := some none, isRunning := true }
          if s2.recvHandle.isSome then .error .recvHandleBusy
          else
            match s2.conn with
            | none => .error .recvConnNone
            | some _ =>
              .ok { s2 with
                    recvRx := true, closeRecvTx := true,
                    recvHandle := some none, isRunning := true }
  else .error .notClosed

/-- `DtlsClient::disconnect` (dtls_client.rs lines 340-344):
`close_send_loop` then `close_recv_loop`; each returns early when its
close channel is already gone, otherwise clears its endpoint slots. -/
def clientDisconnect (s : DtlsClientSt) : DtlsClientSt :=
  let s1 :=
    if s.closeSendTx then
      { s with closeSendTx := false, sendTimeoutRx := false, sendTx := false }
    else s
  if s1.closeRecvTx then
    { s1 with closeRecvTx := false, recvRx := false }
  else s1

/-- The value `DtlsClient::health_check` returns
(dtls_client.rs lines 58-62). -/
structure DtlsClientHealth where
  sender : Option WRes
  recver : Option WRes
  closed : Bool

/-- `DtlsClient::health_check` (dtls_client.rs lines 320-338):
`health_check_send_loop` and `health_check_recv_loop` consume a finished
handle and surface its result; `closed` is computed from `is_running` and
the handle slots after that reaping; when closed, the connection slot is
cleared and `is_running` reset. -/
def clientHealthCheck (s : DtlsClientSt) : DtlsClientHealth × DtlsClientSt :=
  let sPair :=
    match s.sendHandle with
    | some (some r) => (some r, (none : Handle))
    | h => (none, h)
  let rPair :=
    match s.recvHandle with
    | some (some r) => (some r, (none : Handle))
    | h => (none, h)
  let closed := s.isRunning && sPair.2.isNone && rPair.2.isNone
  let s1 := { s with sendHandle := sPair.2, recvHandle := rPair.2 }
  let s2 := if closed then { s1 with conn := none, isRunning := false } else s1
  (⟨sPair.1, rPair.1, closed⟩, s2)

/-! ## Server facade (DtlsServer) -/

/-- Failure cases of `DtlsServer::send` (dtls_server.rs lines 512-533):
the registry has no record under the index, the record has no send
endpoint, or the sender loop dropped the receiving half. -/
inductive SSendErr where
  | noSuchConn
  | noSendTx
  | sendChanClosed

/-- `DtlsServer::send` (dtls_server.rs lines 512-533). -/
def serverSend (m : ConnMap) (k : Nat) (_msg : List Nat) : Except SSendErr Unit :=
  match m.lookup k with
  | none => .error .noSuchConn
  | some c =>
    match c.sendTx with
    | none => .error .noSendTx
    | some alive => if alive then .ok () else .error .sendChanClosed

/-- Update the record under key `k` in place, as `get_mut` does. -/
def mapUpdate (m : ConnMap) (k : Nat) (f : SConnRec → SConnRec) : ConnMap :=
  m.map fun p => if p.1 = k then (p.1, f p.2) else p

/-- `DtlsServer::disconnect` (dtls_server.rs lines 601-623): returns
`()` in the source; modelled as the updated registry together with the
number of per-connection close signals emitted.  When the index is
unknown the body of the `if let` is skipped entirely. -/
def serverDisconnect (m : ConnMap) (k : Nat) : ConnMap × Nat :=
  match m.lookup k with
  | none => (m, 0)
  | some c =>
    let sigs := (if c.closeRecvTx then 1 else 0) + (if c.closeSendTx then 1 else 0)
    (mapUpdate m k
      (fun r => { r with closeRecvTx := false, closeSendTx := false, sendTx := none }), sigs)

/-- The `DtlsServer` resource (dtls_server.rs lines 378-399): `lsn` is the
listener slot, channel endpoints are modelled by their presence. -/
structure DtlsServerSt where
  maxClients : Nat
  sendTimeoutSecs : Nat
  recvBufSize : Nat
  recvTimeoutSecs : Option Nat
  lsn : Option Nat
  acptHandle : Handle
  acptRx : Bool
  closeAcptTx : Bool
  connMap : ConnMap
  recvTx : Bool
  recvRx : Bool
  timeoutTx : Bool
  timeoutRx : Bool

/-- `DtlsServer::is_closed` (dtls_server.rs lines 436-452). -/
def serverIsClosed (s : DtlsServerSt) : Bool :=
  s.connMap.isEmpty && s.lsn.isNone && s.acptHandle.isNone
  && !s.acptRx && !s.closeAcptTx
  && !s.recvTx && !s.recvRx && !s.timeoutRx && !s.timeoutTx

/-- `DtlsServer::close` (dtls_server.rs lines 639-646): `close_acpt_loop`
(send the accepter close signal when the channel is present, then clear
`close_acpt_tx` and `acpt_rx`), then clear the shared inbound and timeout
channel slots.  The Bool is whether the accepter close signal was sent. -/
def serverClose (s : DtlsServerSt) : DtlsServerSt × Bool :=
  let sig := s.closeAcptTx
  let s1 := { s with closeAcptTx := false, acptRx := false }
  ({ s1 with recvTx := false, recvRx := false, timeoutTx := false, timeoutRx := false }, sig)

/-! ## Invariants used by the accepter theorems -/

/-- The state carried by a step result, whether the loop continues or
breaks. -/
def stepState : AcptState ⊕ (AcptState × Except AcptErr Unit) → AcptState
  | .inl s => s
  | .inr (s, _) => s

/-- Index-counter invariant of the accepter: the counter never left its
start value 1 behind, announced indices are strictly increasing and all
below the counter. -/
def acptIdxInv (s : AcptState) : Prop :=
  1 ≤ s.idxCtr ∧ s.announced.Pairwise (· < ·)
  ∧ ∀ i ∈ s.announced, 1 ≤ i ∧ i < s.idxCtr

/-- Capacity invariant of the accepter when the registry is never
concurrently shrunk: the counter stays one ahead of the registry size at
most, and every announced index lies in 1..maxClients. -/
def acptCapInv (mx : Nat) (s : AcptState) : Prop :=
  1 ≤ s.idxCtr ∧ s.idxCtr ≤ s.registry.length + 1
  ∧ ∀ i ∈ s.announced, 1 ≤ i ∧ i ≤ mx

/-- Every index with a record in the registry was already announced on the
accept channel. -/
def regAnnounced (s : AcptState) : Prop :=
  ∀ k c, (k, c) ∈ s.registry → k ∈ s.announced

/-! ## Accepter theorems -/

theorem admitMicro_last (s : AcptState) (p : Nat) (d : AcptState) :
    (admitMicro s p).getLastD d =
      { s with idxCtr := s.idxCtr + 1,
               registry := s.registry ++ [(s.idxCtr, SConnRec.new p)],
               announced := s.announced ++ [s.idxCtr] } := rfl

theorem acptStep_idxInv (mx : Nat) (s : AcptState) (e : AcptEvent) (h : acptIdxInv s) :
    acptIdxInv (stepState (acptStep mx s e)) := by
  obtain ⟨h1, h2, h3⟩ := h
  cases e with
  | close => exact ⟨h1, h2, h3⟩
  | acceptFail e => exact ⟨h1, h2, h3⟩
  | chanElse => exact ⟨h1, h2, h3⟩
  | reap k => exact ⟨h1, h2, h3⟩
  | accepted p txOk =>
    by_cases hcap : mx ≤ s.registry.length
    · have hq : acptStep mx s (.accepted p txOk)
          = .inl { s with closedPeers := s.closedPeers ++ [p] } := by
        simp [acptStep, hcap]
      rw [hq]
      exact ⟨h1, h2, h3⟩
    · by_cases hov : s.idxCtr = UMAX64
      · have hq : acptStep mx s (.accepted p txOk)
            = .inr ({ s with closedPeers := s.closedPeers ++ [p] },
                .error .idxOverflow) := by
          simp [acptStep, hcap, hov]
        rw [hq]
        exact ⟨h1, h2, h3⟩
      · cases txOk with
        | true =>
          have hq : acptStep mx s (.accepted p true)
              = .inl ((admitMicro s p).getLastD s) := by
            simp [acptStep, hcap, hov]
          rw [hq, admitMicro_last]
          simp only [stepState]
          refine ⟨?_, ?_, ?_⟩
          · dsimp only
            omega
          · dsimp only
            rw [List.pairwise_append]
            refine ⟨h2, List.pairwise_singleton _ _, ?_⟩
            intro a ha b hb
            rw [List.mem_singleton] at hb
            subst hb
            exact (h3 a ha).2
          · dsimp only
            intro i hi
            rcases List.mem_append.mp hi with hil | hir
            · have := h3 i hil
              exact ⟨this.1, by omega⟩
            · rw [List.mem_singleton] at hir
              subst hir
              exact ⟨h1, by omega⟩
        | false =>
          have hq : acptStep mx s (.accepted p false)
              = .inr ({ s with
                  idxCtr := s.idxCtr + 1,
                  closedPeers := s.closedPeers ++ [p] },
                .error .acptChanClosed) := by
            simp [acptStep, hcap, hov]
          rw [hq]
          simp only [stepState]
          refine ⟨?_, h2, ?_⟩
          · dsimp only
            omega
          · dsimp only
            intro i hi
            have := h3 i hi
            exact ⟨this.1, by omega⟩

theorem acptRun_idxInv (mx : Nat) (es : List AcptEvent) (s : AcptState)
    (h : acptIdxInv s) : acptIdxInv (acptRun mx s es).1 := by
  induction es generalizing s with
  | nil => exact h
  | cons e es ih =>
    have hstep := acptStep_idxInv mx s e h
    simp only [acptRun]
    cases hq : acptStep mx s e with
    | inl s1 =>
      rw [hq] at hstep
      exact ih s1 hstep
    | inr p =>
      rw [hq] at hstep
      exact hstep

/-- C1: in the accepter loop, connection indices come from a monotone
counter starting at 1: over any run, the announced indices are strictly
increasing (hence never reused) and never zero; and at a state whose
counter sits at the largest u64 value, accepting a peer (with room in the
registry) closes that peer and breaks the loop with the fatal
index-overflow error, announcing nothing. -/
theorem acpt_index_monotone (mx : Nat) (es : List AcptEvent) :
    ((acptRun mx initAcptState es).1.announced.Pairwise (· < ·)
      ∧ ∀ i ∈ (acptRun mx initAcptState es).1.announced, 1 ≤ i)
    ∧ ∀ s p t, s.registry.length < mx → s.idxCtr = UMAX64 →
        acptStep mx s (.accepted p t)
          = .inr ({ s with closedPeers := s.closedPeers ++ [p] },
              .error .idxOverflow) := by
  have hinv : acptIdxInv initAcptState :=
    ⟨Nat.le_refl 1, List.Pairwise.nil, by intro i hi; simp [initAcptState] at hi⟩
  have h := acptRun_idxInv mx es initAcptState hinv
  refine ⟨⟨h.2.1, fun i hi => (h.2.2 i hi).1⟩, ?_⟩
  intro s p t hcap hov
  have hn : ¬ mx ≤ s.registry.length := by omega
  simp [acptStep, hn, hov]

/-- Witness for acpt_index_monotone: a concrete two-admission run and a
concrete state at the overflow boundary. -/
theorem acpt_index_monotone_wit :
    ((acptRun 3 initAcptState
        [AcptEvent.accepted 7 true, AcptEvent.accepted 8 true]).1.announced.Pairwise (· < ·)
      ∧ ∀ i ∈ (acptRun 3 initAcptState
          [AcptEvent.accepted 7 true, AcptEvent.accepted 8 true]).1.announced, 1 ≤ i)
    ∧ acptStep 3 ⟨UMAX64, [], [], []⟩ (.accepted 9 true)
        = .inr (⟨UMAX64, [], [], [9]⟩, .error .idxOverflow) := by
  have h := acpt_index_monotone 3 [AcptEvent.accepted 7 true, AcptEvent.accepted 8 true]
  refine ⟨h.1, ?_⟩
  have h2 := h.2 ⟨UMAX64, [], [], []⟩ 9 true (by simp) rfl
  simpa using h2

theorem acptRun_capInv (mx : Nat) (es : List AcptEvent) (s : AcptState)
    (hnr : ∀ e ∈ es, isReap e = false) (h : acptCapInv mx s) :
    ∀ i ∈ (acptRun mx s es).1.announced, 1 ≤ i ∧ i ≤ mx := by
  induction es generalizing s with
  | nil => exact h.2.2
  | cons e es ih =>
    obtain ⟨h1, h2, h3⟩ := h
    have hnr' : ∀ x ∈ es, isReap x = false :=
      fun x hx => hnr x (List.mem_cons_of_mem _ hx)
    simp only [acptRun]
    cases e with
    | close => exact h3
    | acceptFail e => exact h3
    | chanElse => exact h3
    | reap k =>
      have := hnr (.reap k) (List.mem_cons_self _ _)
      simp [isReap] at this
    | accepted p txOk =>
      by_cases hcap : mx ≤ s.registry.length
      · have hq : acptStep mx s (.accepted p txOk)
            = .inl { s with closedPeers := s.closedPeers ++ [p] } := by
          simp [acptStep, hcap]
        rw [hq]
        exact ih _ hnr' ⟨h1, h2, h3⟩
      · by_cases hov : s.idxCtr = UMAX64
        · have hq : acptStep mx s (.accepted p txOk)
              = .inr ({ s with closedPeers := s.closedPeers ++ [p] },
                  .error .idxOverflow) := by
            simp [acptStep, hcap, hov]
          rw [hq]
          exact h3
        · cases txOk with
          | true =>
            have hq : acptStep mx s (.accepted p true)
                = .inl ((admitMicro s p).getLastD s) := by
              simp [acptStep, hcap, hov]
            rw [hq, admitMicro_last]
            refine ih _ hnr' ⟨?_, ?_, ?_⟩
            · dsimp only
              omega
            · dsimp only
              simp only [List.length_append, List.length_singleton]
              omega
            · dsimp only
              intro i hi
              rcases List.mem_append.mp hi with hil | hir
              · exact h3 i hil
              · rw [List.mem_singleton] at hir
                subst hir
                omega
          | false =>
            have hq : acptStep mx s (.accepted p false)
                = .inr ({ s with
                    idxCtr := s.idxCtr + 1,
                    closedPeers := s.closedPeers ++ [p] },
                  .error .acptChanClosed) := by
              simp [acptStep, hcap, hov]
            rw [hq]
            exact h3

/-- C4: when the accepter accepts a peer while the registry already holds
maxClients records, the peer is closed and the loop continues with the
counter untouched; and over any run in which no record is concurrently
removed, only indices in 1..maxClients are ever announced. -/
theorem acpt_max_clients (mx : Nat) (es : List AcptEvent)
    (hnr : ∀ e ∈ es, isReap e = false) :
    (∀ i ∈ (acptRun mx initAcptState es).1.announced, 1 ≤ i ∧ i ≤ mx)
    ∧ ∀ s p t, mx ≤ s.registry.length →
        acptStep mx s (.accepted p t)
          = .inl { s with closedPeers := s.closedPeers ++ [p] } := by
  refine ⟨acptRun_capInv mx es initAcptState hnr
    ⟨Nat.le_refl 1, by simp [initAcptState], by simp [initAcptState]⟩, ?_⟩
  intro s p t hcap
  simp [acptStep, hcap]

/-- Witness for acpt_max_clients: maxClients = 1 with two accepted peers,
and a concrete full-registry state. -/
theorem acpt_max_clients_wit :
    (∀ i ∈ (acptRun 1 initAcptState
        [AcptEvent.accepted 7 true, AcptEvent.accepted 8 true]).1.announced,
        1 ≤ i ∧ i ≤ 1)
    ∧ acptStep 1 ⟨5, [(1, SConnRec.new 7)], [1], []⟩ (.accepted 8 true)
        = .inl ⟨5, [(1, SConnRec.new 7)], [1], [8]⟩ := by
  have h := acpt_max_clients 1
    [AcptEvent.accepted 7 true, AcptEvent.accepted 8 true] (by decide)
  refine ⟨h.1, ?_⟩
  have h2 := h.2 ⟨5, [(1, SConnRec.new 7)], [1], []⟩ 8 true (by simp)
  simpa using h2

theorem admitMicro_regAnnounced (s : AcptState) (p : Nat) (h : regAnnounced s) :
    ∀ t ∈ admitMicro s p, regAnnounced t := by
  intro t ht
  simp only [admitMicro, List.mem_cons, List.not_mem_nil, or_false] at ht
  rcases ht with h1 | h2 | h3
  · subst h1
    intro k c hk
    exact h k c hk
  · subst h2
    intro k c hk
    exact List.mem_append_left _ (h k c hk)
  · subst h3
    intro k c hk
    dsimp only at hk ⊢
    rcases List.mem_append.mp hk with hl | hr
    · exact List.mem_append_left _ (h k c hl)
    · rw [List.mem_singleton] at hr
      injection hr with hk1 hk2
      subst hk1
      exact List.mem_append_right _ (List.mem_singleton.mpr rfl)

theorem acptStep_regAnnounced (mx : Nat) (s : AcptState) (e : AcptEvent)
    (h : regAnnounced s) : regAnnounced (stepState (acptStep mx s e)) := by
  cases e with
  | close => exact h
  | acceptFail e => exact h
  | chanElse => exact h
  | reap k =>
    intro k0 c hk
    exact h k0 c (List.mem_of_mem_filter hk)
  | accepted p txOk =>
    by_cases hcap : mx ≤ s.registry.length
    · have hq : acptStep mx s (.accepted p txOk)
          = .inl { s with closedPeers := s.closedPeers ++ [p] } := by
        simp [acptStep, hcap]
      rw [hq]
      exact h
    · by_cases hov : s.idxCtr = UMAX64
      · have hq : acptStep mx s (.accepted p txOk)
            = .inr ({ s with closedPeers := s.closedPeers ++ [p] },
                .error .idxOverflow) := by
          simp [acptStep, hcap, hov]
        rw [hq]
        exact h
      · cases txOk with
        | true =>
          have hq : acptStep mx s (.accepted p true)
              = .inl ((admitMicro s p).getLastD s) := by
            simp [acptStep, hcap, hov]
          rw [hq]
          simp only [stepState]
          refine admitMicro_regAnnounced s p h _ ?_
          rw [admitMicro_last]
          simp [admitMicro]
        | false =>
          have hq : acptStep mx s (.accepted p false)
              = .inr ({ s with
                  idxCtr := s.idxCtr + 1,
                  closedPeers := s.closedPeers ++ [p] },
                .error .acptChanClosed) := by
            simp [acptStep, hcap, hov]
          rw [hq]
          exact h

theorem acptRun_regAnnounced (mx : Nat) (es : List AcptEvent) (s : AcptState)
    (h : regAnnounced s) : regAnnounced (acptRun mx s es).1 := by
  induction es generalizing s with
  | nil => exact h
  | cons e es ih =>
    have hstep := acptStep_regAnnounced mx s e h
    simp only [acptRun]
    cases hq : acptStep mx s e with
    | inl s1 =>
      rw [hq] at hstep
      exact ih s1 hstep
    | inr p =>
      rw [hq] at hstep
      exact hstep

/-- C3 counterexample: in the admission path the index is announced on
the accept channel BEFORE the record is inserted into the registry
(dtls_server.rs lines 158-169); after the announce micro-step index 1 is
on the accept channel while the registry is still empty, so there is a
point where an announced index has no registry record, contradicting the
claimed insert-then-announce order. -/
theorem acpt_announce_order_cx :
    (admitMicro initAcptState 7).map (fun s => (s.announced, s.registry.length))
      = [([], 0), ([1], 0), ([1], 1)] := rfl

/-- C3 (amended): the admission order is assign, then announce through the
accept channel, then insert into the registry; consequently the reverse
containment holds: at every point (across whole runs and across every
admission micro-step) every index with a record in the registry has
already been announced. -/
theorem acpt_announce_order_amended (mx : Nat) (es : List AcptEvent) :
    regAnnounced (acptRun mx initAcptState es).1
    ∧ ∀ s p, regAnnounced s → ∀ t ∈ admitMicro s p, regAnnounced t := by
  refine ⟨acptRun_regAnnounced mx es initAcptState ?_, fun s p h => admitMicro_regAnnounced s p h⟩
  intro k c hk
  simp [initAcptState] at hk

/-- Witness for acpt_announce_order_amended: in a concrete one-admission
run, the single registry key 1 is announced. -/
theorem acpt_announce_order_amended_wit :
    1 ∈ ((acptRun 1 initAcptState [AcptEvent.accepted 7 true]).1).announced := by
  have hreg : ((acptRun 1 initAcptState [AcptEvent.accepted 7 true]).1).registry
      = [(1, SConnRec.new 7)] := rfl
  exact (acpt_announce_order_amended 1 [AcptEvent.accepted 7 true]).1 1 (SConnRec.new 7)
    (by rw [hreg]; exact List.mem_singleton.mpr rfl)

/-- C7 counterexample: a run terminated by a close signal (loop result
Ok) whose listener close fails is reported with the listener-close error,
not with the loop's own result: `listener.close().await?` propagates the
close error instead of ignoring it. -/
theorem acpt_lsn_close_cx :
    acptLoopResult 4 [AcptEvent.close] (Except.error "close failed")
      = some (Except.error (AcptErr.lsnCloseFail "close failed"))
    ∧ (acptRun 4 initAcptState [AcptEvent.close]).2 = some (Except.ok ()) :=
  ⟨rfl, rfl⟩

/-- C7 (amended): whenever the accepter loop terminates the listener is
closed; if closing succeeds the terminal result is the loop's own result,
but if closing fails the listener-close error replaces the loop's result
as the reported terminal result. -/
theorem acpt_lsn_close_amended (mx : Nat) (es : List AcptEvent)
    (r : Except AcptErr Unit) (h : (acptRun mx initAcptState es).2 = some r) :
    acptLoopResult mx es (.ok ()) = some r
    ∧ ∀ e, acptLoopResult mx es (.error e) = some (.error (.lsnCloseFail e)) := by
  constructor
  · unfold acptLoopResult
    rw [h]
  · intro e
    unfold acptLoopResult
    rw [h]

/-- Witness for acpt_lsn_close_amended at a close-terminated run. -/
theorem acpt_lsn_close_amended_wit :
    acptLoopResult 2 [AcptEvent.close] (Except.ok ()) = some (Except.ok ()) :=
  (acpt_lsn_close_amended 2 [AcptEvent.close] (Except.ok ()) rfl).1

/-! ## Sender theorems -/

theorem serverSendLoop_trace (idx : Nat) (es : List SendEvent) :
    ∀ tr, (serverSendLoop idx es tr).1
      = tr ++ (timeoutBytes (procEvents es)).map (fun b => (idx, b)) := by
  induction es with
  | nil => intro tr; simp [serverSendLoop, procEvents, timeoutBytes]
  | cons e es ih =>
    intro tr
    cases e with
    | close => simp [serverSendLoop, procEvents, sendBreaks, timeoutBytes]
    | chanElse => simp [serverSendLoop, procEvents, sendBreaks, timeoutBytes]
    | msg b oc =>
      cases oc with
      | ok n =>
        rw [serverSendLoop, ih tr]
        simp [procEvents, sendBreaks, timeoutBytes, List.filterMap_cons]
      | err e =>
        simp [serverSendLoop, procEvents, sendBreaks, timeoutBytes]
      | timedOut txOk =>
        cases txOk with
        | true =>
          rw [serverSendLoop, ih (tr ++ [(idx, b)])]
          simp [procEvents, sendBreaks, timeoutBytes, List.filterMap_cons]
        | false =>
          simp [serverSendLoop, procEvents, sendBreaks, timeoutBytes]

theorem serverSendLoop_err (idx : Nat) (pre : List SendEvent) (b : List Nat)
    (e : String) (post : List SendEvent) :
    ∀ tr, (∀ x ∈ pre, sendBreaks x = false) →
      (serverSendLoop idx (pre ++ SendEvent.msg b (SendOutcome.err e) :: post) tr).2
        = some (.error (.transport e)) := by
  induction pre with
  | nil => intro tr _; simp [serverSendLoop]
  | cons x pre ih =>
    intro tr hpre
    have hx := hpre x (List.mem_cons_self _ _)
    have hpre' : ∀ y ∈ pre, sendBreaks y = false :=
      fun y hy => hpre y (List.mem_cons_of_mem _ hy)
    cases x with
    | close => simp [sendBreaks] at hx
    | chanElse => simp [sendBreaks] at hx
    | msg b0 oc =>
      cases oc with
      | ok n =>
        rw [List.cons_append, serverSendLoop]
        exact ih tr hpre'
      | err e0 => simp [sendBreaks] at hx
      | timedOut txOk =>
        cases txOk with
        | true =>
          rw [List.cons_append, serverSendLoop]
          exact ih (tr ++ [(idx, b0)]) hpre'
        | false => simp [sendBreaks] at hx

theorem clientSendLoop_trace (es : List SendEvent) :
    ∀ tr, (clientSendLoop es tr).1 = tr ++ timeoutBytes (procEvents es) := by
  induction es with
  | nil => intro tr; simp [clientSendLoop, procEvents, timeoutBytes]
  | cons e es ih =>
    intro tr
    cases e with
    | close => simp [clientSendLoop, procEvents, sendBreaks, timeoutBytes]
    | chanElse => simp [clientSendLoop, procEvents, sendBreaks, timeoutBytes]
    | msg b oc =>
      cases oc with
      | ok n =>
        rw [clientSendLoop, ih tr]
        simp [procEvents, sendBreaks, timeoutBytes, List.filterMap_cons]
      | err e =>
        simp [clientSendLoop, procEvents, sendBreaks, timeoutBytes]
      | timedOut txOk =>
        cases txOk with
        | true =>
          rw [clientSendLoop, ih (tr ++ [b])]
          simp [procEvents, sendBreaks, timeoutBytes, List.filterMap_cons]
        | false =>
          simp [clientSendLoop, procEvents, sendBreaks, timeoutBytes]

theorem clientSendLoop_err (pre : List SendEvent) (b : List Nat)
    (e : String) (post : List SendEvent) :
    ∀ tr, (∀ x ∈ pre, sendBreaks x = false) →
      (clientSendLoop (pre ++ SendEvent.msg b (SendOutcome.err e) :: post) tr).2
        = some (.error (.transport e)) := by
  induction pre with
  | nil => intro tr _; simp [clientSendLoop]
  | cons x pre ih =>
    intro tr hpre
    have hx := hpre x (List.mem_cons_self _ _)
    have hpre' : ∀ y ∈ pre, sendBreaks y = false :=
      fun y hy => hpre y (List.mem_cons_of_mem _ hy)
    cases x with
    | close => simp [sendBreaks] at hx
    | chanElse => simp [sendBreaks] at hx
    | msg b0 oc =>
      cases oc with
      | ok n =>
        rw [List.cons_append, clientSendLoop]
        exact ih tr hpre'
      | err e0 => simp [sendBreaks] at hx
      | timedOut txOk =>
        cases txOk with
        | true =>
          rw [List.cons_append, clientSendLoop]
          exact ih (tr ++ [b0]) hpre'
        | false => simp [sendBreaks] at hx

/-- C2: in both sender loops (server and client), over any run the items
re-emitted on the timeout channel are exactly the original bytes of the
dequeued messages whose send timed out, byte-identical and in order (the
loop continues after each such message); and when the first loop-breaking
event is a transport error on a dequeued message, the loop exits
terminally with that transport error. -/
theorem send_loop_timeout_reemit (idx : Nat) (es : List SendEvent) :
    ((serverSendLoop idx es []).1
        = (timeoutBytes (procEvents es)).map (fun b => (idx, b))
      ∧ ∀ pre b e post, es = pre ++ SendEvent.msg b (SendOutcome.err e) :: post →
          (∀ x ∈ pre, sendBreaks x = false) →
          (serverSendLoop idx es []).2 = some (.error (.transport e)))
    ∧ ((clientSendLoop es []).1 = timeoutBytes (procEvents es)
      ∧ ∀ pre b e post, es = pre ++ SendEvent.msg b (SendOutcome.err e) :: post →
          (∀ x ∈ pre, sendBreaks x = false) →
          (clientSendLoop es []).2 = some (.error (.transport e))) := by
  refine ⟨⟨by simpa using serverSendLoop_trace idx es [], ?_⟩,
          by simpa using clientSendLoop_trace es [], ?_⟩
  · intro pre b e post hes hpre
    subst hes
    exact serverSendLoop_err idx pre b e post [] hpre
  · intro pre b e post hes hpre
    subst hes
    exact clientSendLoop_err pre b e post [] hpre

/-- Witness for send_loop_timeout_reemit: a server run with one timed-out
message followed by a transport error, and a client run with one timed-out
message. -/
theorem send_loop_timeout_reemit_wit :
    (serverSendLoop 3 [SendEvent.msg [1, 2] (SendOutcome.timedOut true),
        SendEvent.msg [9] (SendOutcome.err "boom")] []).1 = [(3, [1, 2])]
    ∧ (serverSendLoop 3 [SendEvent.msg [1, 2] (SendOutcome.timedOut true),
        SendEvent.msg [9] (SendOutcome.err "boom")] []).2
        = some (Except.error (SendErr.transport "boom"))
    ∧ (clientSendLoop [SendEvent.msg [4] (SendOutcome.timedOut true)] []).1 = [[4]] := by
  have h := send_loop_timeout_reemit 3
    [SendEvent.msg [1, 2] (SendOutcome.timedOut true),
     SendEvent.msg [9] (SendOutcome.err "boom")]
  have hc := send_loop_timeout_reemit 3 [SendEvent.msg [4] (SendOutcome.timedOut true)]
  refine ⟨h.1.1.trans rfl, ?_, hc.2.1.trans rfl⟩
  exact h.1.2 [SendEvent.msg [1, 2] (SendOutcome.timedOut true)] [9] "boom" [] rfl
    (by decide)

/-! ## Receiver theorems -/

theorem bufResize_replicate (k B : Nat) (h : k ≤ B) :
    bufResize (List.replicate k 0) B = List.replicate B 0 := by
  unfold bufResize
  simp only [List.length_replicate]
  by_cases hb : B ≤ k
  · rw [if_pos hb, List.take_replicate]
    congr 1
    omega
  · rw [if_neg hb, ← List.replicate_add]
    congr 1
    omega

theorem recvIter (B : Nat) (d : List Nat) (h : d.length ≤ B) :
    (bufWrite (List.replicate B 0) d).take d.length = d
    ∧ bufResize ((bufWrite (List.replicate B 0) d).drop d.length) B
        = List.replicate B 0 := by
  have hw : bufWrite (List.replicate B 0) d = d ++ List.replicate (B - d.length) 0 := by
    unfold bufWrite
    rw [List.length_replicate, List.take_of_length_le h, List.drop_replicate]
  constructor
  · rw [hw]
    exact List.take_left d _
  · rw [hw, List.drop_left, bufResize_replicate _ _ (by omega)]

theorem srvRecvRun_spec (idx B : Nat) (es : List RecvEvent) :
    ∀ dl rt, (∀ x ∈ es, recSizeOk B x = true) →
      ((srvRecvRun idx B es ⟨List.replicate B 0, dl, rt⟩).1.delivered
          = dl ++ (recvRecords (recvProc es)).map (fun d => (idx, d)))
      ∧ ((srvRecvRun idx B es ⟨List.replicate B 0, dl, rt⟩).2 = none →
          (srvRecvRun idx B es ⟨List.replicate B 0, dl, rt⟩).1.buf
            = List.replicate B 0) := by
  induction es with
  | nil =>
    intro dl rt _
    exact ⟨by simp [srvRecvRun, recvProc, recvRecords], fun _ => rfl⟩
  | cons e es ih =>
    intro dl rt hsz
    have hsz' : ∀ x ∈ es, recSizeOk B x = true :=
      fun x hx => hsz x (List.mem_cons_of_mem _ hx)
    cases e with
    | close =>
      refine ⟨by simp [srvRecvRun, recvProc, recvBreaks, recvRecords], ?_⟩
      intro hr
      simp [srvRecvRun] at hr
    | chanElse =>
      refine ⟨by simp [srvRecvRun, recvProc, recvBreaks, recvRecords], ?_⟩
      intro hr
      simp [srvRecvRun] at hr
    | recvFail e0 =>
      refine ⟨by simp [srvRecvRun, recvProc, recvBreaks, recvRecords], ?_⟩
      intro hr
      simp [srvRecvRun] at hr
    | timerFire txOk =>
      cases txOk with
      | true =>
        have hstep : srvRecvRun idx B (RecvEvent.timerFire true :: es)
            ⟨List.replicate B 0, dl, rt⟩
            = srvRecvRun idx B es ⟨List.replicate B 0, dl, rt ++ [idx]⟩ := by
          simp [srvRecvRun]
        rw [hstep]
        have hih := ih dl (rt ++ [idx]) hsz'
        refine ⟨?_, hih.2⟩
        rw [hih.1]
        simp [recvProc, recvBreaks, recvRecords]
      | false =>
        refine ⟨by simp [srvRecvRun, recvProc, recvBreaks, recvRecords], ?_⟩
        intro hr
        simp [srvRecvRun] at hr
    | record d txOk =>
      have hd : d.length ≤ B := by
        have := hsz _ (List.mem_cons_self _ _)
        simpa [recSizeOk] using this
      obtain ⟨ht, hrz⟩ := recvIter B d hd
      cases txOk with
      | true =>
        have hstep : srvRecvRun idx B (RecvEvent.record d true :: es)
            ⟨List.replicate B 0, dl, rt⟩
            = srvRecvRun idx B es ⟨List.replicate B 0, dl ++ [(idx, d)], rt⟩ := by
          simp only [srvRecvRun, if_true]
          rw [ht, hrz]
        rw [hstep]
        have hih := ih (dl ++ [(idx, d)]) rt hsz'
        refine ⟨?_, hih.2⟩
        rw [hih.1]
        simp [recvProc, recvBreaks, recvRecords, List.filterMap_cons]
      | false =>
        refine ⟨by simp [srvRecvRun, recvProc, recvBreaks, recvRecords], ?_⟩
        intro hr
        simp [srvRecvRun] at hr

theorem cliRecvRun_spec (B : Nat) (es : List CRecvEvent) :
    ∀ dl, (∀ x ∈ es, cRecSizeOk B x = true) →
      ((cliRecvRun B es ⟨List.replicate B 0, dl⟩).1.delivered
          = dl ++ cRecvRecords (cRecvProc es))
      ∧ ((cliRecvRun B es ⟨List.replicate B 0, dl⟩).2 = none →
          (cliRecvRun B es ⟨List.replicate B 0, dl⟩).1.buf = List.replicate B 0) := by
  induction es with
  | nil =>
    intro dl _
    exact ⟨by simp [cliRecvRun, cRecvProc, cRecvRecords], fun _ => rfl⟩
  | cons e es ih =>
    intro dl hsz
    have hsz' : ∀ x ∈ es, cRecSizeOk B x = true :=
      fun x hx => hsz x (List.mem_cons_of_mem _ hx)
    cases e with
    | close =>
      refine ⟨by simp [cliRecvRun, cRecvProc, cRecvBreaks, cRecvRecords], ?_⟩
      intro hr
      simp [cliRecvRun] at hr
    | chanElse =>
      refine ⟨by simp [cliRecvRun, cRecvProc, cRecvBreaks, cRecvRecords], ?_⟩
      intro hr
      simp [cliRecvRun] at hr
    | recvFail e0 =>
      refine ⟨by simp [cliRecvRun, cRecvProc, cRecvBreaks, cRecvRecords], ?_⟩
      intro hr
      simp [cliRecvRun] at hr
    | record d txOk =>
      have hd : d.length ≤ B := by
        have := hsz _ (List.mem_cons_self _ _)
        simpa [cRecSizeOk] using this
      obtain ⟨ht, hrz⟩ := recvIter B d hd
      cases txOk with
      | true =>
        have hstep : cliRecvRun B (CRecvEvent.record d true :: es)
            ⟨List.replicate B 0, dl⟩
            = cliRecvRun B es ⟨List.replicate B 0, dl ++ [d]⟩ := by
          simp only [cliRecvRun, if_true]
          rw [ht, hrz]
        rw [hstep]
        have hih := ih (dl ++ [d]) hsz'
        refine ⟨?_, hih.2⟩
        rw [hih.1]
        simp [cRecvProc, cRecvBreaks, cRecvRecords, List.filterMap_cons]
      | false =>
        refine ⟨by simp [cliRecvRun, cRecvProc, cRecvBreaks, cRecvRecords], ?_⟩
        intro hr
        simp [cliRecvRun] at hr

/-- C8: in both receiver loops, starting from the zeroed buffer of size B
and given that every decoded record fits in the buffer, every processed
record is delivered to the inbound queue exactly as its first n bytes
(byte-identical, in order), and whenever the loop is back at its head
awaiting the next read the buffer has been restored to length B holding
only zeroes — no stale bytes of any previous record remain in the reused
buffer (the split-off datagram is an independent value). -/
theorem recv_loop_buffer_clean (idx B : Nat) (es : List RecvEvent)
    (hsz : ∀ x ∈ es, recSizeOk B x = true)
    (ces : List CRecvEvent) (hcsz : ∀ x ∈ ces, cRecSizeOk B x = true) :
    ((srvRecvRun idx B es ⟨List.replicate B 0, [], []⟩).1.delivered
        = (recvRecords (recvProc es)).map (fun d => (idx, d))
      ∧ ((srvRecvRun idx B es ⟨List.replicate B 0, [], []⟩).2 = none →
          (srvRecvRun idx B es ⟨List.replicate B 0, [], []⟩).1.buf
            = List.replicate B 0))
    ∧ ((cliRecvRun B ces ⟨List.replicate B 0, []⟩).1.delivered
        = cRecvRecords (cRecvProc ces)
      ∧ ((cliRecvRun B ces ⟨List.replicate B 0, []⟩).2 = none →
          (cliRecvRun B ces ⟨List.replicate B 0, []⟩).1.buf
            = List.replicate B 0)) := by
  have hs := srvRecvRun_spec idx B es [] [] hsz
  have hc := cliRecvRun_spec B ces [] hcsz
  exact ⟨⟨by simpa using hs.1, hs.2⟩, ⟨by simpa using hc.1, hc.2⟩⟩

/-- Witness for recv_loop_buffer_clean: one record of 2 bytes in a buffer
of size 4 (server), one record of 1 byte (client). -/
theorem recv_loop_buffer_clean_wit :
    (srvRecvRun 5 4 [RecvEvent.record [1, 2] true]
        ⟨List.replicate 4 0, [], []⟩).1.delivered = [(5, [1, 2])]
    ∧ (srvRecvRun 5 4 [RecvEvent.record [1, 2] true]
        ⟨List.replicate 4 0, [], []⟩).1.buf = List.replicate 4 0
    ∧ (cliRecvRun 4 [CRecvEvent.record [7] true]
        ⟨List.replicate 4 0, []⟩).1.delivered = [[7]] := by
  have h := recv_loop_buffer_clean 5 4 [RecvEvent.record [1, 2] true] (by decide)
    [CRecvEvent.record [7] true] (by decide)
  exact ⟨h.1.1.trans rfl, h.1.2 rfl, h.2.1.trans rfl⟩

/-! ## Client facade theorems -/

theorem clientStart_ne_notClosed (s : DtlsClientSt) (cr : Except String Nat)
    (hc : clientIsClosed s = true) : clientStart s cr ≠ .error .notClosed := by
  have hc0 := hc
  simp only [clientIsClosed, Bool.and_eq_true, Bool.not_eq_true',
    Option.isNone_iff_eq_none] at hc
  obtain ⟨⟨⟨⟨⟨⟨⟨⟨h1, h2⟩, h3⟩, h4⟩, h5⟩, h6⟩, h7⟩, h8⟩, h9⟩ := hc
  intro h
  rw [clientStart.eq_def, if_pos hc0] at h
  cases cr with
  | error e => simp at h
  | ok c => simp [h4, h3] at h

/-- C5: DtlsClient::start fails with the NotClosed error iff is_closed()
is false at the moment of the call (all other failures of start are
different error values); and from a running state with both close
channels present and both worker handles finished, disconnect() followed
by one health_check() that reaps both workers leaves is_closed() true. -/
theorem client_start_closed (s : DtlsClientSt) (cr : Except String Nat)
    (rs rr : WRes) :
    (clientStart s cr = .error .notClosed ↔ clientIsClosed s = false)
    ∧ (s.isRunning = true → s.closeSendTx = true → s.closeRecvTx = true →
       s.sendHandle = some (some rs) → s.recvHandle = some (some rr) →
       clientIsClosed (clientHealthCheck (clientDisconnect s)).2 = true) := by
  constructor
  · constructor
    · intro h
      by_contra hcon
      rw [Bool.not_eq_false] at hcon
      exact clientStart_ne_notClosed s cr hcon h
    · intro h
      rw [clientStart.eq_def, if_neg (by simp [h])]
  · intro h1 hcs hcr hsh hrh
    simp [clientDisconnect, hcs, hcr, clientHealthCheck, hsh, hrh,
      clientIsClosed, h1]

/-- Witness for client_start_closed: an open client with both workers
finished is closed after disconnect plus one health check. -/
theorem client_start_closed_wit :
    clientIsClosed (clientHealthCheck (clientDisconnect
      ⟨some 1, true, some (some (Except.ok ())), true, true, true,
        some (some (Except.ok ())), true, true⟩)).2 = true := by
  exact (client_start_closed
    ⟨some 1, true, some (some (Except.ok ())), true, true, true,
      some (some (Except.ok ())), true, true⟩ (Except.ok 2)
    (Except.ok ()) (Except.ok ())).2 rfl rfl rfl rfl rfl

/-- C9 counterexample: health_check reports closed = true in a call where
only one handle is reaped and the other was already consumed by an
earlier call.  First call: the send loop is finished, the recv loop still
runs; the send handle is consumed and closed is false.  Second call
(after the recv loop finishes): only the recv handle is present and
reaped, yet closed = true -- contradicting the claim that closed requires
BOTH handles present-then-finished within the same call. -/
theorem client_health_cx :
    ((clientHealthCheck ⟨some 1, true, some (some (Except.ok ())), true, true, true,
        some none, true, true⟩).2.sendHandle = none
      ∧ (clientHealthCheck ⟨some 1, true, some (some (Except.ok ())), true, true, true,
          some none, true, true⟩).1.closed = false)
    ∧ (clientHealthCheck { (clientHealthCheck ⟨some 1, true,
          some (some (Except.ok ())), true, true, true,
          some none, true, true⟩).2 with
        recvHandle := some (some (Except.ok ())) }).1.closed = true :=
  ⟨⟨rfl, rfl⟩, rfl⟩

/-- C9 (amended): health_check consumes each finished worker handle and
surfaces its terminal result; it reports closed = true exactly when
is_running holds and after this call both handle slots are empty (a
handle may have been consumed by an earlier call), and when it reports
closed it clears the connection slot and resets is_running. -/
theorem client_health_amended (s : DtlsClientSt) :
    (clientHealthCheck s).1.sender = hRes s.sendHandle
    ∧ (clientHealthCheck s).1.recver = hRes s.recvHandle
    ∧ (clientHealthCheck s).1.closed
        = (s.isRunning && handleDone s.sendHandle && handleDone s.recvHandle)
    ∧ ((clientHealthCheck s).1.closed = true →
        (clientHealthCheck s).2.conn = none
          ∧ (clientHealthCheck s).2.isRunning = false)
    ∧ (clientHealthCheck s).2.sendHandle
        = (if handleDone s.sendHandle then none else s.sendHandle)
    ∧ (clientHealthCheck s).2.recvHandle
        = (if handleDone s.recvHandle then none else s.recvHandle) := by
  obtain ⟨conn, run, sh, stx, strx, cstx, rh, rrx, crtx⟩ := s
  rcases sh with _ | (_ | rs) <;> rcases rh with _ | (_ | rr) <;> cases run <;>
    simp [clientHealthCheck, hRes, handleDone]

/-- Witness for client_health_amended: a running client whose send worker
finished and whose recv handle was consumed earlier reports closed and
has its connection slot cleared. -/
theorem client_health_amended_wit :
    (clientHealthCheck ⟨some 3, true, some (some (Except.ok ())), false, false,
        false, none, false, false⟩).2.conn = none := by
  exact ((client_health_amended ⟨some 3, true, some (some (Except.ok ())), false,
    false, false, none, false, false⟩).2.2.2.1 rfl).1

/-! ## Server facade theorems -/

/-- C6 counterexample: DtlsServer::disconnect has no error path at all:
called with index 5 on an empty registry it silently does nothing --
registry unchanged, no close signal emitted, unit return -- rather than
failing with a NoSuchConn error as the claim states for disconnect. -/
theorem server_disconnect_cx : serverDisconnect [] 5 = ([], 0) := rfl

/-- C6 (amended): for every index not present in the connection registry,
DtlsServer::send fails with the NoSuchConn error, while
DtlsServer::disconnect silently does nothing: it returns without any
error, leaves the registry unchanged and emits no per-connection close
signal. -/
theorem server_unknown_idx (m : ConnMap) (k : Nat) (msg : List Nat)
    (h : m.lookup k = none) :
    serverSend m k msg = .error .noSuchConn ∧ serverDisconnect m k = (m, 0) := by
  unfold serverSend serverDisconnect
  rw [h]
  exact ⟨rfl, rfl⟩

/-- Witness for server_unknown_idx: index 5 against a registry holding
only index 1. -/
theorem server_unknown_idx_wit :
    serverSend [(1, SConnRec.new 9)] 5 [1, 2] = .error .noSuchConn
    ∧ serverDisconnect [(1, SConnRec.new 9)] 5 = ([(1, SConnRec.new 9)], 0) :=
  server_unknown_idx [(1, SConnRec.new 9)] 5 [1, 2] rfl

/-- C10: DtlsServer::close signals only the accepter and clears the
close-accept, accept, inbound and timeout channel slots; the connection
registry (with every per-connection record, including send endpoints and
close channels), the listener slot, the accepter handle and the scalar
configuration are left unchanged and no per-connection close signal is
emitted; consequently while admitted connections remain in the registry,
is_closed() stays false after close(). -/
theorem server_close_frame (s : DtlsServerSt) :
    (s.connMap ≠ [] → serverIsClosed (serverClose s).1 = false)
    ∧ (serverClose s).1.connMap = s.connMap
    ∧ (serverClose s).1.lsn = s.lsn
    ∧ (serverClose s).1.acptHandle = s.acptHandle
    ∧ (serverClose s).1.maxClients = s.maxClients
    ∧ (serverClose s).1.sendTimeoutSecs = s.sendTimeoutSecs
    ∧ (serverClose s).1.recvBufSize = s.recvBufSize
    ∧ (serverClose s).1.recvTimeoutSecs = s.recvTimeoutSecs
    ∧ (serverClose s).1.closeAcptTx = false
    ∧ (serverClose s).1.acptRx = false
    ∧ (serverClose s).1.recvTx = false
    ∧ (serverClose s).1.recvRx = false
    ∧ (serverClose s).1.timeoutTx = false
    ∧ (serverClose s).1.timeoutRx = false
    ∧ (serverClose s).2 = s.closeAcptTx := by
  refine ⟨?_, rfl, rfl, rfl, rfl, rfl, rfl, rfl, rfl, rfl, rfl, rfl, rfl, rfl, rfl⟩
  intro h
  have hne : s.connMap.isEmpty = false := by
    cases hm : s.connMap with
    | nil => exact absurd hm h
    | cons a l => rfl
  simp [serverIsClosed, serverClose, hne]

/-- Witness for server_close_frame: a server with one admitted connection
is not closed after close(). -/
theorem server_close_frame_wit :
    serverIsClosed (serverClose
      ⟨4, 10, 100, none, some 1, some none, true, true, [(1, SConnRec.new 9)],
        true, true, true, true⟩).1 = false :=
  (server_close_frame
    ⟨4, 10, 100, none, some 1, some none, true, true, [(1, SConnRec.new 9)],
      true, true, true, true⟩).1 (List.cons_ne_nil _ _)
